import Mathlib

set_option maxRecDepth 16384

/-
  Verification of the CRX fetch/extract core (src/index.js).

  The two core functions of the source, extractCrxToFolder and
  parseZipCentralDirectory, operate on a Node Buffer and perform
  filesystem side effects.  They are embedded here as pure functions on
  byte lists (a Buffer is a list of byte values) that return the list of
  filesystem actions performed together with an optional error.  Node's
  Buffer.readUInt16LE / readUInt32LE throw an untyped RangeError when the
  read is out of range; this is the rangeError constructor below, kept
  distinct from the error kinds the source itself throws.

  External collaborators (Node builtins, not part of this repository):
  zlib.inflateRawSync is modelled as an explicit function parameter
  (none denotes a thrown decompression error); path.join and
  path.dirname are modelled after the documented posix behaviour for
  relative paths; fs.mkdirSync and fs.writeFileSync are modelled as
  emitted FsAction values in program order.
-/

namespace Crx

/-- Error outcomes of the extraction pipeline.  All constructors except
rangeError correspond to a throw statement written in the source;
rangeError models the untyped RangeError thrown by Node Buffer reads that
index past the end of the buffer. -/
inductive ZipError where
  | rangeError
  | invalidMagic
  | unsupportedVersion (version : Nat)
  | malformedHeader
  | directoryNotFound
  | directoryOutOfRange
  | cdSignatureMismatch (ptr : Nat)
  | localHeaderSignatureMismatch (offset : Nat) (filename : List Nat)
  | unsupportedCompressionMethod (method : Nat) (filename : List Nat)
  | decompressionFailed
deriving DecidableEq, Repr

/-- A filesystem side effect performed by the extractor: a recursive
directory creation or a file write.  Paths and file data are byte
lists. -/
inductive FsAction where
  | mkdir (p : List Nat)
  | writeFile (p : List Nat) (data : List Nat)
deriving DecidableEq, Repr

/-- The byte of a buffer at an index, none past the end. -/
def byteAt : List Nat → Nat → Option Nat
  | [], _ => none
  | x :: _, 0 => some x
  | _ :: r, i + 1 => byteAt r i

/-- Buffer.readUInt16LE: little-endian 16-bit read, none when the two
bytes are not all inside the buffer. -/
def readU16? (b : List Nat) (i : Nat) : Option Nat :=
  match byteAt b i, byteAt b (i+1) with
  | some x0, some x1 => some (x0 + 256 * x1)
  | _, _ => none

/-- Buffer.readUInt32LE: little-endian 32-bit read, none when the four
bytes are not all inside the buffer. -/
def readU32? (b : List Nat) (i : Nat) : Option Nat :=
  match byteAt b i, byteAt b (i+1), byteAt b (i+2), byteAt b (i+3) with
  | some x0, some x1, some x2, some x3 =>
      some (x0 + 256 * x1 + 65536 * x2 + 16777216 * x3)
  | _, _, _, _ => none

/-- Buffer.slice / Buffer.toString byte range: the clamped half-open byte
range from s to e. -/
def bslice (b : List Nat) (s e : Nat) : List Nat := (b.take e).drop s

/-- The two-character parent path segment. -/
def dotdot : List Nat := [46, 46]

/-- One step of posix path normalization over a reversed segment stack:
a parent segment pops the stack unless it is empty or already holds a
parent segment. -/
def normStep (acc : List (List Nat)) (seg : List Nat) : List (List Nat) :=
  if seg = dotdot then
    match acc with
    | [] => [dotdot]
    | t :: rest => if t = dotdot then dotdot :: t :: rest else rest
  else seg :: acc

/-- Modelled from the spec: path.join of the Node path module (an
external collaborator) for relative posix paths.  Segments are joined,
empty and current-directory segments dropped, parent segments resolved,
and a trailing separator of the second argument preserved; an empty
result is the current directory. -/
def pathJoin (a b : List Nat) : List Nat :=
  let segs := (List.splitOn 47 a ++ List.splitOn 47 b).filter
    (fun s => s != [] && s != [46])
  let ns := (segs.foldl normStep []).reverse
  let base := List.intercalate [47] ns
  if base.isEmpty then [46]
  else if b.getLast? = some 47 then base ++ [47] else base

/-- Modelled from the spec: path.dirname of the Node path module (an
external collaborator), posix behaviour: trailing separators are ignored,
the last segment is removed, a current-directory or root result is
produced when nothing remains. -/
def dirname (p : List Nat) : List Nat :=
  let r2 := (p.reverse).dropWhile (fun c => c == 47)
  let r3 := r2.dropWhile (fun c => c != 47)
  match r3 with
  | [] => if p.head? = some 47 then [47] else [46]
  | _ :: rest =>
    if rest.isEmpty then (if p.head? = some 47 then [47] else [46])
    else rest.reverse

/-- Whether path p is the root itself or lies strictly under it. -/
def withinRoot (root p : List Nat) : Bool :=
  p == root || p.take (root.length + 1) == root ++ [47]

/-- One central-directory entry descriptor as collected by the source
into its files array. -/
structure CdEntry where
  filename : List Nat
  method : Nat
  compSize : Nat
  unCompSize : Nat
  flags : Nat
  localHeaderOffset : Nat
deriving DecidableEq, Repr

/-- The backward scan loop of the EOCD search: position i is checked for
the EOCD signature, and on mismatch the scan moves down one byte, giving
up below minPos.  The loop is entered only with minPos at most i, as in
the source. -/
def scanEocd (b : List Nat) (minPos : Nat) : Nat → Option Nat
  | 0 => if readU32? b 0 = some 0x06054b50 then some 0 else none
  | i + 1 =>
    if readU32? b (i + 1) = some 0x06054b50 then some (i + 1)
    else if i + 1 ≤ minPos then none
    else scanEocd b minPos i

/-- The EOCD search of parseZipCentralDirectory: scan 32-bit words from
length minus 4 downward, no further back than length minus 65557. -/
def findEocd (b : List Nat) : Option Nat :=
  if b.length < 4 then none
  else scanEocd b (b.length - 65557) (b.length - 4)

/-- The central-directory parsing loop of parseZipCentralDirectory: for
each of the given number of records, check the record signature, read the
fixed fields in source order, take the filename bytes, and advance the
cursor past filename, extra field and comment.  Reads that index past the
buffer end yield rangeError, as in Node. -/
def parseCdEntries (b : List Nat) : Nat → Nat → Except ZipError (List CdEntry)
  | 0, _ => .ok []
  | n + 1, ptr =>
    match readU32? b ptr with
    | none => .error .rangeError
    | some sig =>
      if sig ≠ 0x02014b50 then .error (.cdSignatureMismatch ptr)
      else
        match readU16? b (ptr+4), readU16? b (ptr+6), readU16? b (ptr+8),
              readU16? b (ptr+10), readU16? b (ptr+12), readU16? b (ptr+14) with
        | some _, some _, some flags, some method, some _, some _ =>
          match readU32? b (ptr+16), readU32? b (ptr+20), readU32? b (ptr+24) with
          | some _, some compSize, some unCompSize =>
            match readU16? b (ptr+28), readU16? b (ptr+30), readU16? b (ptr+32),
                  readU16? b (ptr+34), readU16? b (ptr+36) with
            | some fLen, some xLen, some cLen, some _, some _ =>
              match readU32? b (ptr+38), readU32? b (ptr+42) with
              | some _, some localHeaderOffset =>
                match parseCdEntries b n (ptr + 46 + fLen + xLen + cLen) with
                | .error e => .error e
                | .ok rest =>
                  .ok (⟨bslice b (ptr+46) (ptr+46+fLen), method, compSize,
                        unCompSize, flags, localHeaderOffset⟩ :: rest)
              | _, _ => .error .rangeError
            | _, _, _, _, _ => .error .rangeError
          | _, _, _ => .error .rangeError
        | _, _, _, _, _, _ => .error .rangeError

/-- Extraction of a single files-array element: directory markers only
create their directory; other entries have their local header signature
checked, the local name and extra lengths read, the payload sliced as
exactly compSize bytes from the computed data start, the parent directory
created, and the decoded payload written, stored verbatim for method 0
and through the inflate collaborator for method 8. -/
def extractOne (inflate : List Nat → Option (List Nat)) (b : List Nat)
    (outFolder : List Nat) (f : CdEntry) : List FsAction × Option ZipError :=
  if f.filename.getLast? = some 47 then
    ([FsAction.mkdir (pathJoin outFolder f.filename)], none)
  else
    match readU32? b f.localHeaderOffset with
    | none => ([], some .rangeError)
    | some localSig =>
      if localSig ≠ 0x04034b50 then
        ([], some (.localHeaderSignatureMismatch f.localHeaderOffset f.filename))
      else
        match readU16? b (f.localHeaderOffset+4), readU16? b (f.localHeaderOffset+6),
              readU16? b (f.localHeaderOffset+8) with
        | some _, some _, some _ =>
          match readU16? b (f.localHeaderOffset+26), readU16? b (f.localHeaderOffset+28) with
          | some lhFNameLen, some lhXLen =>
            if f.method = 0 then
              ([FsAction.mkdir (dirname (pathJoin outFolder f.filename)),
                FsAction.writeFile (pathJoin outFolder f.filename)
                  (bslice b (f.localHeaderOffset + 30 + lhFNameLen + lhXLen)
                    (f.localHeaderOffset + 30 + lhFNameLen + lhXLen + f.compSize))], none)
            else if f.method = 8 then
              match inflate (bslice b (f.localHeaderOffset + 30 + lhFNameLen + lhXLen)
                  (f.localHeaderOffset + 30 + lhFNameLen + lhXLen + f.compSize)) with
              | some unzipped =>
                ([FsAction.mkdir (dirname (pathJoin outFolder f.filename)),
                  FsAction.writeFile (pathJoin outFolder f.filename) unzipped], none)
              | none =>
                ([FsAction.mkdir (dirname (pathJoin outFolder f.filename))],
                 some .decompressionFailed)
            else
              ([FsAction.mkdir (dirname (pathJoin outFolder f.filename))],
               some (.unsupportedCompressionMethod f.method f.filename))
          | _, _ => ([], some .rangeError)
        | _, _, _ => ([], some .rangeError)

/-- The extraction loop over the files array: actions of successfully
processed entries accumulate in order; the first failing entry aborts the
whole loop, discarding no action already performed and performing none
for the remaining entries. -/
def extractFiles (inflate : List Nat → Option (List Nat)) (b : List Nat)
    (outFolder : List Nat) : List CdEntry → List FsAction × Option ZipError
  | [] => ([], none)
  | f :: rest =>
    match extractOne inflate b outFolder f with
    | (acts, some e) => (acts, some e)
    | (acts, none) =>
      (acts ++ (extractFiles inflate b outFolder rest).1,
       (extractFiles inflate b outFolder rest).2)

/-- The part of parseZipCentralDirectory after the directory range check
passed: parse the central directory records, create the output folder,
and run the extraction loop. -/
def afterDirCheck (inflate : List Nat → Option (List Nat)) (b : List Nat)
    (outFolder : List Nat) (totalCD cdOffset : Nat) : List FsAction × Option ZipError :=
  match parseCdEntries b totalCD cdOffset with
  | .error e => ([], some e)
  | .ok files =>
    (FsAction.mkdir outFolder :: (extractFiles inflate b outFolder files).1,
     (extractFiles inflate b outFolder files).2)

/-- parseZipCentralDirectory: locate the EOCD record from the end, read
total record count, directory size and directory offset, validate the
directory range against the buffer length, then parse the directory and
extract every entry. -/
def parseZipCentralDirectory (inflate : List Nat → Option (List Nat))
    (b : List Nat) (outFolder : List Nat) : List FsAction × Option ZipError :=
  match findEocd b with
  | none => ([], some .directoryNotFound)
  | some eocdPos =>
    match readU16? b (eocdPos+10), readU32? b (eocdPos+12), readU32? b (eocdPos+16) with
    | some totalCD, some cdSize, some cdOffset =>
      if cdOffset + cdSize > b.length then ([], some .directoryOutOfRange)
      else afterDirCheck inflate b outFolder totalCD cdOffset
    | _, _, _ => ([], some .rangeError)

/-- The byte values of the Cr24 magic. -/
def crxMagic : List Nat := [67, 114, 50, 52]

/-- The header-stripping computation of extractCrxToFolder: check the
magic, read the version word, and compute the ZIP start offset from the
version-specific length fields. -/
def crxZipStart (b : List Nat) : Except ZipError Nat :=
  if bslice b 0 4 ≠ crxMagic then .error .invalidMagic
  else
    match readU32? b 4 with
    | none => .error .rangeError
    | some version =>
      if version = 2 then
        match readU32? b 8, readU32? b 12 with
        | some pkLen, some sigLen => .ok (16 + pkLen + sigLen)
        | _, _ => .error .rangeError
      else if version = 3 ∨ version = 4 then
        match readU32? b 8 with
        | some headerSize => .ok (12 + headerSize)
        | none => .error .rangeError
      else .error (.unsupportedVersion version)

/-- extractCrxToFolder: strip the CRX container header, reject a start
offset at or past the buffer end, and extract the remaining bytes as the
ZIP archive view. -/
def extractCrxToFolder (inflate : List Nat → Option (List Nat))
    (b : List Nat) (outFolder : List Nat) : List FsAction × Option ZipError :=
  match crxZipStart b with
  | .error e => ([], some e)
  | .ok zipStartOffset =>
    if zipStartOffset ≥ b.length then ([], some .malformedHeader)
    else parseZipCentralDirectory inflate (b.drop zipStartOffset) outFolder

/-- An archive entry for the round-trip statement: its name, compression
method, stored payload bytes and original uncompressed content. -/
structure ZipEntry where
  name : List Nat
  method : Nat
  payload : List Nat
  content : List Nat
deriving DecidableEq, Repr

/-- The fixed thirty bytes of a local file header for an entry:
signature, version needed, flags, method, time, date, crc, compressed
size, uncompressed size, name length, extra length, all little
endian. -/
def localRecFixed (e : ZipEntry) : List Nat :=
  [80, 75, 3, 4, 20, 0, 0, 0,
   e.method % 256, e.method / 256 % 256, 0, 0, 0, 0, 0, 0, 0, 0,
   e.payload.length % 256, e.payload.length / 256 % 256,
   e.payload.length / 65536 % 256, e.payload.length / 16777216 % 256,
   e.content.length % 256, e.content.length / 256 % 256,
   e.content.length / 65536 % 256, e.content.length / 16777216 % 256,
   e.name.length % 256, e.name.length / 256 % 256, 0, 0]

/-- A full local section for an entry: fixed header, name, payload. -/
def localRec (e : ZipEntry) : List Nat := localRecFixed e ++ e.name ++ e.payload

/-- All local sections of an archive, in entry order. -/
def localPart : List ZipEntry → List Nat
  | [] => []
  | e :: r => localRec e ++ localPart r

/-- The fixed forty-six bytes of a central directory record for an entry
whose local header lives at offset lho: signature, version made by,
version needed, flags, method, time, date, crc, compressed size,
uncompressed size, name length, extra length, comment length, disk
number, internal attributes, external attributes, local header offset,
all little endian. -/
def cdRecFixed (e : ZipEntry) (lho : Nat) : List Nat :=
  [80, 75, 1, 2, 20, 0, 20, 0, 0, 0,
   e.method % 256, e.method / 256 % 256, 0, 0, 0, 0, 0, 0, 0, 0,
   e.payload.length % 256, e.payload.length / 256 % 256,
   e.payload.length / 65536 % 256, e.payload.length / 16777216 % 256,
   e.content.length % 256, e.content.length / 256 % 256,
   e.content.length / 65536 % 256, e.content.length / 16777216 % 256,
   e.name.length % 256, e.name.length / 256 % 256,
   0, 0, 0, 0, 0, 0, 0, 0, 0, 0, 0, 0,
   lho % 256, lho / 256 % 256, lho / 65536 % 256, lho / 16777216 % 256]

/-- A full central directory record: fixed fields then the name. -/
def cdRec (e : ZipEntry) (lho : Nat) : List Nat := cdRecFixed e lho ++ e.name

/-- All central directory records, tracking the running local header
offset. -/
def cdRecs : List ZipEntry → Nat → List Nat
  | [], _ => []
  | e :: r, lho =>
    cdRec e lho ++ cdRecs r (lho + (30 + e.name.length + e.payload.length))

/-- The twenty-two byte EOCD record with an empty comment: signature,
disk numbers, record counts, directory size, directory offset, comment
length, all little endian. -/
def eocdRec (n sz off : Nat) : List Nat :=
  [80, 75, 5, 6, 0, 0, 0, 0,
   n % 256, n / 256 % 256, n % 256, n / 256 % 256,
   sz % 256, sz / 256 % 256, sz / 65536 % 256, sz / 16777216 % 256,
   off % 256, off / 256 % 256, off / 65536 % 256, off / 16777216 % 256,
   0, 0]

/-- A complete archive built from an entry list: local sections, central
directory, EOCD record. -/
def zipBuild (es : List ZipEntry) : List Nat :=
  localPart es ++ cdRecs es 0 ++
    eocdRec es.length (cdRecs es 0).length (localPart es).length

/-- The descriptor list the central directory of a built archive denotes,
tracking the running local header offset. -/
def cdDescs : List ZipEntry → Nat → List CdEntry
  | [], _ => []
  | e :: r, lho =>
    ⟨e.name, e.method, e.payload.length, e.content.length, 0, lho⟩ ::
      cdDescs r (lho + (30 + e.name.length + e.payload.length))

/-- An entry is a directory marker when its name ends with the path
separator. -/
abbrev isDirEntry (e : ZipEntry) : Prop := e.name.getLast? = some 47

/-- Field size bounds making every field of an entry representable in its
archive record. -/
abbrev entryOK (e : ZipEntry) : Prop :=
  e.name.length < 65536 ∧ e.method < 65536 ∧
    e.payload.length < 4294967296 ∧ e.content.length < 4294967296

/-- The payload of an entry decodes to its content: stored verbatim for
method 0, through the inflate collaborator for method 8. -/
abbrev entryGood (inflate : List Nat → Option (List Nat)) (e : ZipEntry) : Prop :=
  (e.method = 0 ∧ e.payload = e.content) ∨
    (e.method = 8 ∧ inflate e.payload = some e.content)

/-- The filesystem actions extraction performs for an entry list of a
built archive, in order. -/
def actionsFor (out : List Nat) : List ZipEntry → List FsAction
  | [] => []
  | e :: r =>
    (if e.name.getLast? = some 47 then
      [FsAction.mkdir (pathJoin out e.name)]
     else
      [FsAction.mkdir (dirname (pathJoin out e.name)),
       FsAction.writeFile (pathJoin out e.name) e.content]) ++ actionsFor out r

/-- A concrete stand-in for the inflate collaborator used in closed
instances: it decodes the single raw-deflate stream consisting of one
final stored block holding three bytes of value 97, and rejects anything
else. -/
def inflateFix (p : List Nat) : Option (List Nat) :=
  if p = [1, 3, 0, 252, 255, 97, 97, 97] then some [97, 97, 97] else none

end Crx

namespace Crx

/-- Reading a byte past a left part of an appended buffer reads from the
right part. -/
theorem byteAt_append_right (a c : List Nat) (i : Nat) :
    byteAt (a ++ c) (a.length + i) = byteAt c i := by
  induction a with
  | nil => simp [byteAt]
  | cons x r ih =>
    rw [List.cons_append, show (x :: r).length + i = (r.length + i) + 1 by
      simp [List.length_cons]; omega]
    simpa [byteAt] using ih

/-- A 16-bit read past a left part of an appended buffer reads from the
right part. -/
theorem readU16?_shift (a c : List Nat) (i : Nat) :
    readU16? (a ++ c) (a.length + i) = readU16? c i := by
  unfold readU16?
  rw [byteAt_append_right, show a.length + i + 1 = a.length + (i + 1) by omega,
    byteAt_append_right]

/-- A 32-bit read past a left part of an appended buffer reads from the
right part. -/
theorem readU32?_shift (a c : List Nat) (i : Nat) :
    readU32? (a ++ c) (a.length + i) = readU32? c i := by
  unfold readU32?
  rw [byteAt_append_right, show a.length + i + 1 = a.length + (i + 1) by omega,
    byteAt_append_right, show a.length + i + 2 = a.length + (i + 2) by omega,
    byteAt_append_right, show a.length + i + 3 = a.length + (i + 3) by omega,
    byteAt_append_right]

/-- Slicing an appended buffer from the end of its left part takes from
the right part. -/
theorem bslice_append (a c : List Nat) (k : Nat) :
    bslice (a ++ c) a.length (a.length + k) = c.take k := by
  unfold bslice
  rw [List.take_append, List.drop_left]

/-- Slicing out a middle part of an appended buffer by its exact bounds
recovers it. -/
theorem bslice_exact (pre mid rest : List Nat) :
    bslice (pre ++ mid ++ rest) pre.length (pre.length + mid.length) = mid := by
  rw [List.append_assoc, bslice_append, List.take_left]

/-- An in-range slice of the stated width has exactly that width. -/
theorem bslice_length (b : List Nat) (s k : Nat) (h : s + k ≤ b.length) :
    (bslice b s (s + k)).length = k := by
  unfold bslice
  rw [List.length_drop, List.length_take]
  omega

/-- A byte successfully read lies inside the buffer. -/
theorem byteAt_lt_length (b : List Nat) (i v : Nat) (h : byteAt b i = some v) :
    i < b.length := by
  induction b generalizing i with
  | nil => simp [byteAt] at h
  | cons x r ih =>
    cases i with
    | zero => simp [List.length_cons]
    | succ j =>
      simp only [List.length_cons]
      exact Nat.succ_lt_succ (ih j h)

/-- A successful 32-bit read lies within the buffer. -/
theorem readU32?_bound (b : List Nat) (i v : Nat) (h : readU32? b i = some v) :
    i + 4 ≤ b.length := by
  unfold readU32? at h
  rcases h3 : byteAt b (i+3) with _ | x3
  · rw [h3] at h
    rcases byteAt b i with _ | x0 <;> rcases byteAt b (i+1) with _ | x1 <;>
      rcases byteAt b (i+2) with _ | x2 <;> simp at h
  · have := byteAt_lt_length b (i+3) x3 h3
    omega

/-- The two-byte little-endian encoding decodes to the encoded value. -/
theorem u16round (n : Nat) (h : n < 65536) :
    n % 256 + 256 * (n / 256 % 256) = n := by omega

/-- The four-byte little-endian encoding decodes to the encoded value. -/
theorem u32round (n : Nat) (h : n < 4294967296) :
    n % 256 + 256 * (n / 256 % 256) + 65536 * (n / 65536 % 256) +
      16777216 * (n / 16777216 % 256) = n := by omega

/-- The scan stops immediately at a position holding the signature. -/
theorem scanEocd_found (b : List Nat) (minPos i : Nat)
    (h : readU32? b i = some 0x06054b50) : scanEocd b minPos i = some i := by
  cases i <;> simp [scanEocd, h]

/-- A successful scan returns a position in the window holding the
signature, and no higher scanned position holds it. -/
theorem scanEocd_some (b : List Nat) (minPos : Nat) :
    ∀ i p, minPos ≤ i → scanEocd b minPos i = some p →
      minPos ≤ p ∧ p ≤ i ∧ readU32? b p = some 0x06054b50 ∧
        ∀ q, p < q → q ≤ i → readU32? b q ≠ some 0x06054b50 := by
  intro i
  induction i with
  | zero =>
    intro p h0 hs
    by_cases hsig : readU32? b 0 = some 0x06054b50
    · simp [scanEocd, hsig] at hs
      subst hs
      exact ⟨h0, Nat.le_refl 0, hsig, fun q h1 h2 => by omega⟩
    · simp [scanEocd, hsig] at hs
  | succ i ih =>
    intro p h0 hs
    by_cases hsig : readU32? b (i+1) = some 0x06054b50
    · simp [scanEocd, hsig] at hs
      subst hs
      exact ⟨h0, Nat.le_refl _, hsig, fun q h1 h2 => by omega⟩
    · simp only [scanEocd, if_neg hsig] at hs
      by_cases hmin : i + 1 ≤ minPos
      · simp [hmin] at hs
      · simp only [if_neg hmin] at hs
        obtain ⟨ha, hb, hc, hd⟩ := ih p (by omega) hs
        refine ⟨ha, by omega, hc, fun q h1 h2 => ?_⟩
        rcases Nat.lt_or_ge q (i+1) with hq | hq
        · exact hd q h1 (by omega)
        · have : q = i + 1 := by omega
          simpa [this] using hsig

/-- A failed scan means no scanned position holds the signature. -/
theorem scanEocd_none (b : List Nat) (minPos : Nat) :
    ∀ i, scanEocd b minPos i = none →
      ∀ q, minPos ≤ q → q ≤ i → readU32? b q ≠ some 0x06054b50 := by
  intro i
  induction i with
  | zero =>
    intro hs q h1 h2
    have : q = 0 := by omega
    subst this
    intro hsig
    simp [scanEocd, hsig] at hs
  | succ i ih =>
    intro hs q h1 h2
    by_cases hsig : readU32? b (i+1) = some 0x06054b50
    · simp [scanEocd, hsig] at hs
    · simp only [scanEocd, if_neg hsig] at hs
      rcases Nat.lt_or_ge q (i+1) with hq | hq
      · by_cases hmin : i + 1 ≤ minPos
        · omega
        · simp only [if_neg hmin] at hs
          exact ih hs q h1 (by omega)
      · have : q = i + 1 := by omega
        simpa [this] using hsig

/-- Scanning downward across positions known not to hold the signature
reaches the signature position. -/
theorem scanEocd_skip (b : List Nat) (minPos p : Nat) (hmin : minPos ≤ p)
    (hp : readU32? b p = some 0x06054b50) :
    ∀ k, (∀ j, p < j → j ≤ p + k → readU32? b j ≠ some 0x06054b50) →
      scanEocd b minPos (p + k) = some p := by
  intro k
  induction k with
  | zero => intro _; exact scanEocd_found b minPos p hp
  | succ k ih =>
    intro hno
    have hne : readU32? b (p + (k+1)) ≠ some 0x06054b50 :=
      hno (p + (k+1)) (by omega) (by omega)
    have : p + (k + 1) = (p + k) + 1 := by omega
    rw [this]
    simp only [scanEocd, if_neg (by simpa [this] using hne : readU32? b ((p+k)+1) ≠ some 0x06054b50),
      if_neg (by omega : ¬ (p + k + 1 ≤ minPos))]
    exact ih (fun j h1 h2 => hno j h1 (by omega))

/-- A successful EOCD search yields the highest position in the bounded
window holding the signature. -/
theorem findEocd_some (b : List Nat) (p : Nat) (h : findEocd b = some p) :
    b.length - 65557 ≤ p ∧ p + 4 ≤ b.length ∧ readU32? b p = some 0x06054b50 ∧
      ∀ q, p < q → q + 4 ≤ b.length → readU32? b q ≠ some 0x06054b50 := by
  unfold findEocd at h
  by_cases hlen : b.length < 4
  · simp [hlen] at h
  · simp only [if_neg hlen] at h
    obtain ⟨ha, hb, hc, hd⟩ :=
      scanEocd_some b (b.length - 65557) (b.length - 4) p (by omega) h
    exact ⟨ha, by omega, hc, fun q h1 h2 => hd q h1 (by omega)⟩

/-- A failed EOCD search means no position in the bounded window holds
the signature. -/
theorem findEocd_none (b : List Nat) (h : findEocd b = none) :
    ∀ q, b.length - 65557 ≤ q → q + 4 ≤ b.length →
      readU32? b q ≠ some 0x06054b50 := by
  intro q h1 h2
  unfold findEocd at h
  by_cases hlen : b.length < 4
  · omega
  · simp only [if_neg hlen] at h
    exact scanEocd_none b (b.length - 65557) (b.length - 4) h q h1 (by omega)

end Crx

namespace Crx

/-- C2: with valid magic, a version-2 header yields start offset 16 plus
the public-key and signature length fields, a version-3 or version-4
header yields 12 plus the header size field, and any other version fails
with unsupportedVersion carrying the version value. -/
theorem C2_version_offset (b : List Nat) (P S H v : Nat)
    (hmagic : bslice b 0 4 = crxMagic) :
    (readU32? b 4 = some 2 → readU32? b 8 = some P → readU32? b 12 = some S →
      crxZipStart b = Except.ok (16 + P + S)) ∧
    ((readU32? b 4 = some 3 ∨ readU32? b 4 = some 4) → readU32? b 8 = some H →
      crxZipStart b = Except.ok (12 + H)) ∧
    (readU32? b 4 = some v → v ≠ 2 → v ≠ 3 → v ≠ 4 →
      crxZipStart b = Except.error (ZipError.unsupportedVersion v)) := by
  refine ⟨?_, ?_, ?_⟩
  · intro h4 h8 h12
    simp [crxZipStart, hmagic, h4, h8, h12]
  · rintro (h4 | h4) h8 <;> simp [crxZipStart, hmagic, h4, h8]
  · intro h4 h2 h3 hv
    simp [crxZipStart, hmagic, h4, h2, h3, hv]

/-- Closed instance of C2 at version-2, version-3 and version-9 buffers. -/
theorem C2_version_offset_witness :
    crxZipStart [67, 114, 50, 52, 2, 0, 0, 0, 1, 0, 0, 0, 2, 0, 0, 0] = Except.ok 19 ∧
    crxZipStart [67, 114, 50, 52, 3, 0, 0, 0, 2, 0, 0, 0] = Except.ok 14 ∧
    crxZipStart [67, 114, 50, 52, 9, 0, 0, 0] =
      Except.error (ZipError.unsupportedVersion 9) :=
  ⟨(C2_version_offset [67, 114, 50, 52, 2, 0, 0, 0, 1, 0, 0, 0, 2, 0, 0, 0] 1 2 0 0
      (by decide)).1 (by decide) (by decide) (by decide),
   (C2_version_offset [67, 114, 50, 52, 3, 0, 0, 0, 2, 0, 0, 0] 0 0 2 0
      (by decide)).2.1 (Or.inl (by decide)) (by decide),
   (C2_version_offset [67, 114, 50, 52, 9, 0, 0, 0] 0 0 0 9
      (by decide)).2.2 (by decide) (by decide) (by decide) (by decide)⟩

/-- C8: once the start offset is computed, an offset at or past the buffer
length fails with malformedHeader, and a smaller offset hands the byte
suffix from that offset to the archive extractor. -/
theorem C8_start_bound (inflate : List Nat → Option (List Nat)) (b out : List Nat)
    (off : Nat) (hok : crxZipStart b = Except.ok off) :
    (b.length ≤ off →
      extractCrxToFolder inflate b out = ([], some ZipError.malformedHeader)) ∧
    (off < b.length →
      extractCrxToFolder inflate b out =
        parseZipCentralDirectory inflate (b.drop off) out) := by
  constructor
  · intro h
    simp only [extractCrxToFolder, hok]
    rw [if_pos (by omega : off ≥ b.length)]
  · intro h
    simp only [extractCrxToFolder, hok]
    rw [if_neg (by omega : ¬ off ≥ b.length)]

/-- Closed instance of C8 at a header consuming the whole buffer and at a
header followed by one archive byte. -/
theorem C8_start_bound_witness :
    extractCrxToFolder inflateFix [67, 114, 50, 52, 3, 0, 0, 0, 0, 0, 0, 0] [111] =
      ([], some ZipError.malformedHeader) ∧
    extractCrxToFolder inflateFix [67, 114, 50, 52, 3, 0, 0, 0, 0, 0, 0, 0, 9] [111] =
      parseZipCentralDirectory inflateFix [9] [111] :=
  ⟨(C8_start_bound inflateFix [67, 114, 50, 52, 3, 0, 0, 0, 0, 0, 0, 0] [111] 12
      rfl).1 (by decide),
   by
    have h := (C8_start_bound inflateFix [67, 114, 50, 52, 3, 0, 0, 0, 0, 0, 0, 0, 9]
      [111] 12 rfl).2 (by decide)
    simpa using h⟩

/-- C10: the found EOCD position is not checked to leave room for the
fixed record: on a view holding the signature alone, the signature is
found within the last twenty-one bytes, and reading the record fields
indexes past the view end, failing with the untyped range error rather
than directoryNotFound or any taxonomy error. -/
theorem C10_truncated_eocd_range_error :
    findEocd [80, 75, 5, 6] = some 0 ∧
    List.length [80, 75, 5, 6] - 21 ≤ 0 ∧
    parseZipCentralDirectory inflateFix [80, 75, 5, 6] [111] =
      ([], some ZipError.rangeError) :=
  ⟨by decide, by decide, by decide⟩

end Crx

namespace Crx

/-- C3: a found EOCD position holds the signature word, lies in the
window bounded below by length minus 65557, and is the occurrence nearest
the end of the view among positions whose word is fully inside the view;
when no position in the window holds the signature, extraction fails with
directoryNotFound. -/
theorem C3_eocd_search (inflate : List Nat → Option (List Nat)) (b out : List Nat) :
    (∀ p, findEocd b = some p →
      b.length - 65557 ≤ p ∧ p + 4 ≤ b.length ∧
        readU32? b p = some 0x06054b50 ∧
        ∀ q, p < q → q + 4 ≤ b.length → readU32? b q ≠ some 0x06054b50) ∧
    ((∀ q, b.length - 65557 ≤ q → q + 4 ≤ b.length →
        readU32? b q ≠ some 0x06054b50) →
      parseZipCentralDirectory inflate b out =
        ([], some ZipError.directoryNotFound)) := by
  constructor
  · intro p hp
    exact findEocd_some b p hp
  · intro hno
    have hnone : findEocd b = none := by
      cases hfind : findEocd b with
      | none => rfl
      | some p =>
        obtain ⟨h1, h2, h3, _⟩ := findEocd_some b p hfind
        exact absurd h3 (hno p h1 h2)
    simp [parseZipCentralDirectory, hnone]

/-- Closed instance of C3 on a four-byte view without the signature. -/
theorem C3_eocd_search_witness :
    parseZipCentralDirectory inflateFix [0, 0, 0, 0] [111] =
      ([], some ZipError.directoryNotFound) :=
  (C3_eocd_search inflateFix [0, 0, 0, 0] [111]).2 (by
    intro q h1 h2
    have : q = 0 := by simp at h2; omega
    subst this
    decide)

/-- C6: once the directory record fields are read, extraction proceeds
into directory parsing exactly when directoryOffset plus directorySize is
at most the view length, and fails with directoryOutOfRange when the sum
exceeds the view length. -/
theorem C6_directory_range (inflate : List Nat → Option (List Nat)) (b out : List Nat)
    (p n sz off : Nat) (hfind : findEocd b = some p)
    (h10 : readU16? b (p + 10) = some n) (h12 : readU32? b (p + 12) = some sz)
    (h16 : readU32? b (p + 16) = some off) :
    (off + sz ≤ b.length →
      parseZipCentralDirectory inflate b out = afterDirCheck inflate b out n off) ∧
    (b.length < off + sz →
      parseZipCentralDirectory inflate b out =
        ([], some ZipError.directoryOutOfRange)) := by
  constructor
  · intro h
    simp only [parseZipCentralDirectory, hfind, h10, h12, h16]
    rw [if_neg (by omega : ¬ off + sz > b.length)]
  · intro h
    simp only [parseZipCentralDirectory, hfind, h10, h12, h16]
    rw [if_pos (by omega : off + sz > b.length)]

/-- Closed instance of C6: a directory range ending exactly at the view
end passes the check, and one byte further fails with
directoryOutOfRange. -/
theorem C6_directory_range_witness :
    parseZipCentralDirectory inflateFix (eocdRec 0 0 22) [111] =
      afterDirCheck inflateFix (eocdRec 0 0 22) [111] 0 22 ∧
    parseZipCentralDirectory inflateFix (eocdRec 0 0 23) [111] =
      ([], some ZipError.directoryOutOfRange) :=
  ⟨(C6_directory_range inflateFix (eocdRec 0 0 22) [111] 0 0 0 22
      (by decide) (by decide) (by decide) (by decide)).1 (by decide),
   (C6_directory_range inflateFix (eocdRec 0 0 23) [111] 0 0 0 23
      (by decide) (by decide) (by decide) (by decide)).2 (by decide)⟩

end Crx

namespace Crx

/-- C9: every file written by entry extraction is written at the verbatim
path join of the destination root and the entry name, with no
sanitization; concretely, an entry whose name climbs with parent segments
is extracted to a path resolving outside the destination root. -/
theorem C9_path_traversal :
    (∀ (inflate : List Nat → Option (List Nat)) (b out : List Nat) (f : CdEntry)
        (acts : List FsAction) (r : Option ZipError),
      extractOne inflate b out f = (acts, r) →
      ∀ q d, FsAction.writeFile q d ∈ acts → q = pathJoin out f.filename) ∧
    (parseZipCentralDirectory inflateFix
        (zipBuild [⟨[46, 46, 47, 46, 46, 47, 101, 118, 105, 108], 0, [104], [104]⟩])
        [111, 117, 116] =
      ([FsAction.mkdir [111, 117, 116], FsAction.mkdir [46, 46],
        FsAction.writeFile [46, 46, 47, 101, 118, 105, 108] [104]], none) ∧
     pathJoin [111, 117, 116] [46, 46, 47, 46, 46, 47, 101, 118, 105, 108] =
       [46, 46, 47, 101, 118, 105, 108] ∧
     withinRoot [111, 117, 116] [46, 46, 47, 101, 118, 105, 108] = false) := by
  constructor
  · intro inflate b out f acts r hext q d hq
    unfold extractOne at hext
    by_cases hdir : f.filename.getLast? = some 47
    · rw [if_pos hdir] at hext
      injection hext with h1 h2
      subst h1
      simp at hq
    · rw [if_neg hdir] at hext
      cases h0 : readU32? b f.localHeaderOffset with
      | none =>
        simp only [h0] at hext
        injection hext with h1 h2
        subst h1
        simp at hq
      | some sig =>
        simp only [h0] at hext
        by_cases hsig : sig ≠ 0x04034b50
        · rw [if_pos hsig] at hext
          injection hext with h1 h2
          subst h1
          simp at hq
        · rw [if_neg hsig] at hext
          cases h4 : readU16? b (f.localHeaderOffset + 4) with
          | none =>
            simp only [h4] at hext
            injection hext with h1 h2
            subst h1
            simp at hq
          | some a4 =>
            cases h6 : readU16? b (f.localHeaderOffset + 6) with
            | none =>
              simp only [h4, h6] at hext
              injection hext with h1 h2
              subst h1
              simp at hq
            | some a6 =>
              cases h8 : readU16? b (f.localHeaderOffset + 8) with
              | none =>
                simp only [h4, h6, h8] at hext
                injection hext with h1 h2
                subst h1
                simp at hq
              | some a8 =>
                simp only [h4, h6, h8] at hext
                cases h26 : readU16? b (f.localHeaderOffset + 26) with
                | none =>
                  simp only [h26] at hext
                  injection hext with h1 h2
                  subst h1
                  simp at hq
                | some fn =>
                  cases h28 : readU16? b (f.localHeaderOffset + 28) with
                  | none =>
                    simp only [h26, h28] at hext
                    injection hext with h1 h2
                    subst h1
                    simp at hq
                  | some x =>
                    simp only [h26, h28] at hext
                    by_cases hm0 : f.method = 0
                    · rw [if_pos hm0] at hext
                      injection hext with h1 h2
                      subst h1
                      simp at hq
                      exact hq.1
                    · rw [if_neg hm0] at hext
                      by_cases hm8 : f.method = 8
                      · rw [if_pos hm8] at hext
                        cases hinf : inflate (bslice b
                            (f.localHeaderOffset + 30 + fn + x)
                            (f.localHeaderOffset + 30 + fn + x + f.compSize)) with
                        | none =>
                          simp only [hinf] at hext
                          injection hext with h1 h2
                          subst h1
                          simp at hq
                        | some u =>
                          simp only [hinf] at hext
                          injection hext with h1 h2
                          subst h1
                          simp at hq
                          exact hq.1
                      · rw [if_neg hm8] at hext
                        injection hext with h1 h2
                        subst h1
                        simp at hq
  · exact ⟨by decide, by decide, by decide⟩

/-- Closed instance of C9: on the parent-climbing archive, the write path
equals the verbatim join of the root and the entry name. -/
theorem C9_path_traversal_witness :
    [46, 46, 47, 101, 118, 105, 108] =
      pathJoin [111, 117, 116] [46, 46, 47, 46, 46, 47, 101, 118, 105, 108] :=
  C9_path_traversal.1 inflateFix
    (zipBuild [⟨[46, 46, 47, 46, 46, 47, 101, 118, 105, 108], 0, [104], [104]⟩])
    [111, 117, 116]
    ⟨[46, 46, 47, 46, 46, 47, 101, 118, 105, 108], 0, 1, 1, 0, 0⟩
    [FsAction.mkdir [46, 46], FsAction.writeFile [46, 46, 47, 101, 118, 105, 108] [104]]
    none (by decide) [46, 46, 47, 101, 118, 105, 108] [104] (by decide)

end Crx

namespace Crx

/-- The structural byte lookup agrees with list indexing. -/
theorem byteAt_eq_getElem? (b : List Nat) (i : Nat) : byteAt b i = b[i]? := by
  induction b generalizing i with
  | nil => cases i <;> simp [byteAt]
  | cons x r ih => cases i <;> simp [byteAt, ih]

/-- A byte at or past the buffer length is none. -/
theorem byteAt_eq_none (b : List Nat) (i : Nat) (h : b.length ≤ i) :
    byteAt b i = none := by
  rw [byteAt_eq_getElem?]
  exact List.getElem?_eq_none h

/-- Indexing into a slice indexes into the underlying buffer. -/
theorem getElem?_bslice (b : List Nat) (s e i : Nat) :
    (bslice b s e)[i]? = if s + i < e then b[s + i]? else none := by
  unfold bslice
  rw [List.getElem?_drop, List.getElem?_take]

/-- Two buffers agreeing on every byte of a range have equal slices of
that range. -/
theorem bslice_congr (b b2 : List Nat) (s e : Nat)
    (h : ∀ j, s ≤ j → j < e → byteAt b j = byteAt b2 j) :
    bslice b s e = bslice b2 s e := by
  apply List.ext_getElem?
  intro i
  rw [getElem?_bslice, getElem?_bslice]
  by_cases hc : s + i < e
  · rw [if_pos hc, if_pos hc, ← byteAt_eq_getElem?, ← byteAt_eq_getElem?]
    exact h (s + i) (by omega) hc
  · rw [if_neg hc, if_neg hc]

/-- 16-bit reads agree when the two underlying bytes agree. -/
theorem readU16?_congr (b b2 : List Nat) (i : Nat)
    (h0 : byteAt b i = byteAt b2 i) (h1 : byteAt b (i+1) = byteAt b2 (i+1)) :
    readU16? b i = readU16? b2 i := by
  unfold readU16?
  rw [h0, h1]

/-- 32-bit reads agree when the four underlying bytes agree. -/
theorem readU32?_congr (b b2 : List Nat) (i : Nat)
    (h0 : byteAt b i = byteAt b2 i) (h1 : byteAt b (i+1) = byteAt b2 (i+1))
    (h2 : byteAt b (i+2) = byteAt b2 (i+2)) (h3 : byteAt b (i+3) = byteAt b2 (i+3)) :
    readU32? b i = readU32? b2 i := by
  unfold readU32?
  rw [h0, h1, h2, h3]

/-- C4: entry extraction never reads the local-header size fields, at
byte offsets 18 to 25 of the local header: any two buffers agreeing
outside them extract identically; and for a stored entry the written
payload is the slice of exactly compSize bytes, the compressed size from
the central directory record, starting right after the thirty fixed
local-header bytes plus the name and extra lengths read from the local
header. -/
theorem C4_payload_central (inflate : List Nat → Option (List Nat))
    (b b2 out : List Nat) (f : CdEntry) (fn x : Nat) :
    ((∀ i, i < f.localHeaderOffset + 18 ∨ f.localHeaderOffset + 26 ≤ i →
        byteAt b i = byteAt b2 i) →
      extractOne inflate b out f = extractOne inflate b2 out f) ∧
    (f.filename.getLast? ≠ some 47 →
      readU32? b f.localHeaderOffset = some 0x04034b50 →
      (readU16? b (f.localHeaderOffset + 4)).isSome = true →
      (readU16? b (f.localHeaderOffset + 6)).isSome = true →
      (readU16? b (f.localHeaderOffset + 8)).isSome = true →
      readU16? b (f.localHeaderOffset + 26) = some fn →
      readU16? b (f.localHeaderOffset + 28) = some x →
      f.method = 0 →
      extractOne inflate b out f =
        ([FsAction.mkdir (dirname (pathJoin out f.filename)),
          FsAction.writeFile (pathJoin out f.filename)
            (bslice b (f.localHeaderOffset + 30 + fn + x)
              (f.localHeaderOffset + 30 + fn + x + f.compSize))], none) ∧
      (f.localHeaderOffset + 30 + fn + x + f.compSize ≤ b.length →
        (bslice b (f.localHeaderOffset + 30 + fn + x)
          (f.localHeaderOffset + 30 + fn + x + f.compSize)).length = f.compSize)) := by
  constructor
  · intro hagree
    have hlo : ∀ i, i < f.localHeaderOffset + 18 → byteAt b i = byteAt b2 i :=
      fun i hi => hagree i (Or.inl hi)
    have hhi : ∀ i, f.localHeaderOffset + 26 ≤ i → byteAt b i = byteAt b2 i :=
      fun i hi => hagree i (Or.inr hi)
    unfold extractOne
    by_cases hdir : f.filename.getLast? = some 47
    · rw [if_pos hdir, if_pos hdir]
    · rw [if_neg hdir, if_neg hdir]
      have e0 : readU32? b2 f.localHeaderOffset = readU32? b f.localHeaderOffset :=
        (readU32?_congr b b2 _ (hlo _ (by omega)) (hlo _ (by omega))
          (hlo _ (by omega)) (hlo _ (by omega))).symm
      have e4 : readU16? b2 (f.localHeaderOffset + 4) = readU16? b (f.localHeaderOffset + 4) :=
        (readU16?_congr b b2 _ (hlo _ (by omega)) (hlo _ (by omega))).symm
      have e6 : readU16? b2 (f.localHeaderOffset + 6) = readU16? b (f.localHeaderOffset + 6) :=
        (readU16?_congr b b2 _ (hlo _ (by omega)) (hlo _ (by omega))).symm
      have e8 : readU16? b2 (f.localHeaderOffset + 8) = readU16? b (f.localHeaderOffset + 8) :=
        (readU16?_congr b b2 _ (hlo _ (by omega)) (hlo _ (by omega))).symm
      have e26 : readU16? b2 (f.localHeaderOffset + 26) = readU16? b (f.localHeaderOffset + 26) :=
        (readU16?_congr b b2 _ (hhi _ (by omega)) (hhi _ (by omega))).symm
      have e28 : readU16? b2 (f.localHeaderOffset + 28) = readU16? b (f.localHeaderOffset + 28) :=
        (readU16?_congr b b2 _ (hhi _ (by omega)) (hhi _ (by omega))).symm
      cases h0 : readU32? b f.localHeaderOffset with
      | none => simp only [e0, h0]
      | some sig =>
        simp only [e0, h0]
        by_cases hsig : sig ≠ 0x04034b50
        · simp only [if_pos hsig]
        · simp only [if_neg hsig]
          cases h4e : readU16? b (f.localHeaderOffset + 4) with
          | none => simp only [e4, h4e]
          | some a4 =>
            cases h6e : readU16? b (f.localHeaderOffset + 6) with
            | none => simp only [e4, h4e, e6, h6e]
            | some a6 =>
              cases h8e : readU16? b (f.localHeaderOffset + 8) with
              | none => simp only [e4, h4e, e6, h6e, e8, h8e]
              | some a8 =>
                simp only [e4, h4e, e6, h6e, e8, h8e]
                cases h26e : readU16? b (f.localHeaderOffset + 26) with
                | none => simp only [e26, h26e]
                | some fn2 =>
                  cases h28e : readU16? b (f.localHeaderOffset + 28) with
                  | none => simp only [e26, h26e, e28, h28e]
                  | some x2 =>
                    simp only [e26, h26e, e28, h28e]
                    have hbs : bslice b (f.localHeaderOffset + 30 + fn2 + x2)
                        (f.localHeaderOffset + 30 + fn2 + x2 + f.compSize) =
                        bslice b2 (f.localHeaderOffset + 30 + fn2 + x2)
                        (f.localHeaderOffset + 30 + fn2 + x2 + f.compSize) :=
                      bslice_congr b b2 _ _ (fun j hj _ => hhi j (by omega))
                    rw [hbs]
  · intro hreg hsig h4 h6 h8 h26 h28 hm
    obtain ⟨a4, ha4⟩ := Option.isSome_iff_exists.mp h4
    obtain ⟨a6, ha6⟩ := Option.isSome_iff_exists.mp h6
    obtain ⟨a8, ha8⟩ := Option.isSome_iff_exists.mp h8
    constructor
    · unfold extractOne
      rw [if_neg hreg]
      simp only [hsig, ha4, ha6, ha8, h26, h28]
      rw [if_neg (by decide : ¬ (0x04034b50 : Nat) ≠ 0x04034b50), if_pos hm]
    · intro hrange
      exact bslice_length b _ f.compSize hrange

end Crx

namespace Crx

/-- Closed instance of C4: changing the local-header size bytes does not
change extraction, and a stored entry writes the one-byte slice named by
the central-directory compressed size. -/
theorem C4_payload_central_witness :
    extractOne inflateFix (localRec ⟨[97], 0, [120], [120]⟩) [111] ⟨[97], 0, 1, 1, 0, 0⟩ =
      extractOne inflateFix
        [80, 75, 3, 4, 20, 0, 0, 0, 0, 0, 0, 0, 0, 0, 0, 0, 0, 0,
         9, 9, 9, 9, 9, 9, 9, 9, 1, 0, 0, 0, 97, 120] [111] ⟨[97], 0, 1, 1, 0, 0⟩ ∧
    extractOne inflateFix (localRec ⟨[97], 0, [120], [120]⟩) [111] ⟨[97], 0, 1, 1, 0, 0⟩ =
      ([FsAction.mkdir (dirname (pathJoin [111] [97])),
        FsAction.writeFile (pathJoin [111] [97])
          (bslice (localRec ⟨[97], 0, [120], [120]⟩) (0 + 30 + 1 + 0)
            (0 + 30 + 1 + 0 + 1))], none) ∧
    (bslice (localRec ⟨[97], 0, [120], [120]⟩) (0 + 30 + 1 + 0)
      (0 + 30 + 1 + 0 + 1)).length = 1 := by
  refine ⟨(C4_payload_central inflateFix (localRec ⟨[97], 0, [120], [120]⟩)
      [80, 75, 3, 4, 20, 0, 0, 0, 0, 0, 0, 0, 0, 0, 0, 0, 0, 0,
       9, 9, 9, 9, 9, 9, 9, 9, 1, 0, 0, 0, 97, 120] [111] ⟨[97], 0, 1, 1, 0, 0⟩ 1 0).1 ?_,
    ((C4_payload_central inflateFix (localRec ⟨[97], 0, [120], [120]⟩) [] [111]
      ⟨[97], 0, 1, 1, 0, 0⟩ 1 0).2 (by decide) (by decide) (by decide) (by decide)
      (by decide) (by decide) (by decide) rfl).1,
    ((C4_payload_central inflateFix (localRec ⟨[97], 0, [120], [120]⟩) [] [111]
      ⟨[97], 0, 1, 1, 0, 0⟩ 1 0).2 (by decide) (by decide) (by decide) (by decide)
      (by decide) (by decide) (by decide) rfl).2 (by decide)⟩
  intro i hi
  have hi2 : i < 18 ∨ 26 ≤ i := by simpa using hi
  have hl1 : (localRec ⟨[97], 0, [120], [120]⟩ : List Nat).length = 32 := rfl
  have hl2 : ([80, 75, 3, 4, 20, 0, 0, 0, 0, 0, 0, 0, 0, 0, 0, 0, 0, 0,
      9, 9, 9, 9, 9, 9, 9, 9, 1, 0, 0, 0, 97, 120] : List Nat).length = 32 := rfl
  rcases Nat.lt_or_ge i 32 with h32 | h32
  · interval_cases i <;> first | rfl | (rcases hi2 with h | h <;> omega)
  · rw [byteAt_eq_none _ _ (by omega), byteAt_eq_none _ _ (by omega)]

/-- Counterexample to C5 as stated: a method-8 entry whose
central-directory uncompressed size is five, while the payload inflates
to three bytes; extraction succeeds and the written file holds the three
inflated bytes, not five. -/
theorem C5_counterexample :
    parseCdEntries (zipBuild [⟨[97], 8, [1, 3, 0, 252, 255, 97, 97, 97], [0, 0, 0, 0, 0]⟩])
        1 39 = Except.ok [⟨[97], 8, 8, 5, 0, 0⟩] ∧
    parseZipCentralDirectory inflateFix
        (zipBuild [⟨[97], 8, [1, 3, 0, 252, 255, 97, 97, 97], [0, 0, 0, 0, 0]⟩])
        [111, 117, 116] =
      ([FsAction.mkdir [111, 117, 116], FsAction.mkdir [111, 117, 116],
        FsAction.writeFile [111, 117, 116, 47, 97] [97, 97, 97]], none) ∧
    ([97, 97, 97] : List Nat).length ≠ 5 :=
  ⟨rfl, by decide, by decide⟩

/-- C5 amended: a method-8 entry has its central-directory-sized payload
slice handed to raw inflation, and the inflated bytes are written
verbatim, with no check against the uncompressed size field; a failed
inflation aborts with decompressionFailed. -/
theorem C5_deflate_verbatim (inflate : List Nat → Option (List Nat))
    (b out : List Nat) (f : CdEntry) (fn x : Nat)
    (hreg : f.filename.getLast? ≠ some 47)
    (hsig : readU32? b f.localHeaderOffset = some 0x04034b50)
    (h4 : (readU16? b (f.localHeaderOffset + 4)).isSome = true)
    (h6 : (readU16? b (f.localHeaderOffset + 6)).isSome = true)
    (h8 : (readU16? b (f.localHeaderOffset + 8)).isSome = true)
    (h26 : readU16? b (f.localHeaderOffset + 26) = some fn)
    (h28 : readU16? b (f.localHeaderOffset + 28) = some x)
    (hm : f.method = 8) :
    (∀ u, inflate (bslice b (f.localHeaderOffset + 30 + fn + x)
          (f.localHeaderOffset + 30 + fn + x + f.compSize)) = some u →
      extractOne inflate b out f =
        ([FsAction.mkdir (dirname (pathJoin out f.filename)),
          FsAction.writeFile (pathJoin out f.filename) u], none)) ∧
    (inflate (bslice b (f.localHeaderOffset + 30 + fn + x)
          (f.localHeaderOffset + 30 + fn + x + f.compSize)) = none →
      extractOne inflate b out f =
        ([FsAction.mkdir (dirname (pathJoin out f.filename))],
         some ZipError.decompressionFailed)) := by
  obtain ⟨a4, ha4⟩ := Option.isSome_iff_exists.mp h4
  obtain ⟨a6, ha6⟩ := Option.isSome_iff_exists.mp h6
  obtain ⟨a8, ha8⟩ := Option.isSome_iff_exists.mp h8
  have hm0 : ¬ f.method = 0 := by omega
  constructor
  · intro u hu
    unfold extractOne
    rw [if_neg hreg]
    simp only [hsig, ha4, ha6, ha8, h26, h28]
    rw [if_neg (by decide : ¬ (0x04034b50 : Nat) ≠ 0x04034b50),
      if_neg hm0, if_pos hm]
    simp only [hu]
  · intro hu
    unfold extractOne
    rw [if_neg hreg]
    simp only [hsig, ha4, ha6, ha8, h26, h28]
    rw [if_neg (by decide : ¬ (0x04034b50 : Nat) ≠ 0x04034b50),
      if_neg hm0, if_pos hm]
    simp only [hu]

/-- Closed instance of C5 amended: the inflated three bytes are written
verbatim, and a rejecting inflation yields decompressionFailed. -/
theorem C5_deflate_verbatim_witness :
    extractOne inflateFix
        (zipBuild [⟨[97], 8, [1, 3, 0, 252, 255, 97, 97, 97], [0, 0, 0, 0, 0]⟩])
        [111, 117, 116] ⟨[97], 8, 8, 5, 0, 0⟩ =
      ([FsAction.mkdir [111, 117, 116],
        FsAction.writeFile [111, 117, 116, 47, 97] [97, 97, 97]], none) ∧
    extractOne (fun _ => none)
        (zipBuild [⟨[97], 8, [1, 3, 0, 252, 255, 97, 97, 97], [0, 0, 0, 0, 0]⟩])
        [111, 117, 116] ⟨[97], 8, 8, 5, 0, 0⟩ =
      ([FsAction.mkdir [111, 117, 116]], some ZipError.decompressionFailed) := by
  constructor
  · have h := ((C5_deflate_verbatim inflateFix
      (zipBuild [⟨[97], 8, [1, 3, 0, 252, 255, 97, 97, 97], [0, 0, 0, 0, 0]⟩])
      [111, 117, 116] ⟨[97], 8, 8, 5, 0, 0⟩ 1 0 (by decide) (by decide) (by decide)
      (by decide) (by decide) (by decide) (by decide) rfl).1 [97, 97, 97] (by decide))
    simpa using h
  · have h := ((C5_deflate_verbatim (fun _ => none)
      (zipBuild [⟨[97], 8, [1, 3, 0, 252, 255, 97, 97, 97], [0, 0, 0, 0, 0]⟩])
      [111, 117, 116] ⟨[97], 8, 8, 5, 0, 0⟩ 1 0 (by decide) (by decide) (by decide)
      (by decide) (by decide) (by decide) (by decide) rfl).2 rfl)
    simpa using h

end Crx

namespace Crx

/-- Extraction of an entry list whose first part succeeds runs the first
part, keeps its actions, and continues with the remaining entries. -/
theorem extractFiles_ok_append (inflate : List Nat → Option (List Nat))
    (b out : List Nat) (pre rest : List CdEntry) (acts0 : List FsAction)
    (h : extractFiles inflate b out pre = (acts0, none)) :
    extractFiles inflate b out (pre ++ rest) =
      (acts0 ++ (extractFiles inflate b out rest).1,
       (extractFiles inflate b out rest).2) := by
  induction pre generalizing acts0 with
  | nil =>
    simp only [extractFiles] at h
    injection h with h1 h2
    subst h1
    simp
  | cons f r ih =>
    rw [List.cons_append]
    cases hf : extractOne inflate b out f with
    | mk a e =>
      simp only [extractFiles, hf] at h ⊢
      cases e with
      | some err =>
        exact absurd h (by simp)
      | none =>
        injection h with h1 h2
        have hr : extractFiles inflate b out r =
            ((extractFiles inflate b out r).1, none) := by
          rw [← h2]
        have hih := ih (extractFiles inflate b out r).1 hr
        rw [hih]
        subst h1
        simp [List.append_assoc]

/-- Counterexample to C7 as stated: an archive whose single entry has
compression method 99 but is a directory marker; its method is never
inspected and extraction succeeds without any
unsupportedCompressionMethod failure. -/
theorem C7_counterexample :
    parseCdEntries (zipBuild [⟨[100, 47], 99, [], []⟩]) 1 32 =
      Except.ok [⟨[100, 47], 99, 0, 0, 0, 0⟩] ∧
    parseZipCentralDirectory inflateFix (zipBuild [⟨[100, 47], 99, [], []⟩])
        [111, 117, 116] =
      ([FsAction.mkdir [111, 117, 116],
        FsAction.mkdir [111, 117, 116, 47, 100, 47]], none) :=
  ⟨rfl, by decide⟩

/-- C7 amended: when extraction reaches a regular entry with a valid
local header whose method is neither 0 nor 8, after all earlier entries
extracted successfully, the whole operation fails with
unsupportedCompressionMethod naming that method and entry, its parent
directory creation is the last action performed, and no action is
performed for any later entry. -/
theorem C7_unsupported_method_aborts (inflate : List Nat → Option (List Nat))
    (b out : List Nat) (p n sz off : Nat) (pre post : List CdEntry)
    (f : CdEntry) (acts0 : List FsAction) (fn x : Nat)
    (hfind : findEocd b = some p)
    (h10 : readU16? b (p + 10) = some n)
    (h12 : readU32? b (p + 12) = some sz)
    (h16 : readU32? b (p + 16) = some off)
    (hrange : off + sz ≤ b.length)
    (hparse : parseCdEntries b n off = Except.ok (pre ++ f :: post))
    (hpre : extractFiles inflate b out pre = (acts0, none))
    (hreg : f.filename.getLast? ≠ some 47)
    (hsig : readU32? b f.localHeaderOffset = some 0x04034b50)
    (h4 : (readU16? b (f.localHeaderOffset + 4)).isSome = true)
    (h6 : (readU16? b (f.localHeaderOffset + 6)).isSome = true)
    (h8 : (readU16? b (f.localHeaderOffset + 8)).isSome = true)
    (h26 : readU16? b (f.localHeaderOffset + 26) = some fn)
    (h28 : readU16? b (f.localHeaderOffset + 28) = some x)
    (hm0 : f.method ≠ 0) (hm8 : f.method ≠ 8) :
    parseZipCentralDirectory inflate b out =
      (FsAction.mkdir out ::
        (acts0 ++ [FsAction.mkdir (dirname (pathJoin out f.filename))]),
       some (ZipError.unsupportedCompressionMethod f.method f.filename)) := by
  obtain ⟨a4, ha4⟩ := Option.isSome_iff_exists.mp h4
  obtain ⟨a6, ha6⟩ := Option.isSome_iff_exists.mp h6
  obtain ⟨a8, ha8⟩ := Option.isSome_iff_exists.mp h8
  have hone : extractOne inflate b out f =
      ([FsAction.mkdir (dirname (pathJoin out f.filename))],
       some (ZipError.unsupportedCompressionMethod f.method f.filename)) := by
    unfold extractOne
    rw [if_neg hreg]
    simp only [hsig, ha4, ha6, ha8, h26, h28]
    rw [if_neg (by decide : ¬ (0x04034b50 : Nat) ≠ 0x04034b50),
      if_neg hm0, if_neg hm8]
  have hcons : extractFiles inflate b out (f :: post) =
      ([FsAction.mkdir (dirname (pathJoin out f.filename))],
       some (ZipError.unsupportedCompressionMethod f.method f.filename)) := by
    unfold extractFiles
    simp only [hone]
  have hlist : extractFiles inflate b out (pre ++ f :: post) =
      (acts0 ++ [FsAction.mkdir (dirname (pathJoin out f.filename))],
       some (ZipError.unsupportedCompressionMethod f.method f.filename)) := by
    rw [extractFiles_ok_append inflate b out pre (f :: post) acts0 hpre, hcons]
  simp only [parseZipCentralDirectory, hfind, h10, h12, h16]
  rw [if_neg (by omega : ¬ off + sz > b.length)]
  unfold afterDirCheck
  simp only [hparse, hlist]

/-- Closed instance of C7 amended: a one-entry archive with method 99
aborts with unsupportedCompressionMethod naming the method and entry,
right after the parent directory creation. -/
theorem C7_unsupported_method_aborts_witness :
    parseZipCentralDirectory inflateFix (zipBuild [⟨[98], 99, [], []⟩])
        [111, 117, 116] =
      ([FsAction.mkdir [111, 117, 116], FsAction.mkdir [111, 117, 116]],
       some (ZipError.unsupportedCompressionMethod 99 [98])) := by
  have h := C7_unsupported_method_aborts inflateFix (zipBuild [⟨[98], 99, [], []⟩])
    [111, 117, 116] 78 1 47 31 [] [] ⟨[98], 99, 0, 0, 0, 0⟩ [] 1 0
    (by decide) (by decide) (by decide) (by decide) (by decide) rfl rfl
    (by decide) (by decide) (by decide) (by decide) (by decide) (by decide)
    (by decide) (by decide) (by decide)
  simpa using h

end Crx

namespace Crx

/-- The fixed local header is thirty bytes long. -/
theorem localRecFixed_length (e : ZipEntry) : (localRecFixed e).length = 30 := rfl

/-- A local section is thirty bytes plus name plus payload. -/
theorem localRec_length (e : ZipEntry) :
    (localRec e).length = 30 + e.name.length + e.payload.length := by
  unfold localRec
  rw [List.length_append, List.length_append, localRecFixed_length]

/-- The fixed central directory record is forty-six bytes long. -/
theorem cdRecFixed_length (e : ZipEntry) (lho : Nat) :
    (cdRecFixed e lho).length = 46 := rfl

/-- A central directory record is forty-six bytes plus the name. -/
theorem cdRec_length (e : ZipEntry) (lho : Nat) :
    (cdRec e lho).length = 46 + e.name.length := by
  unfold cdRec
  rw [List.length_append, cdRecFixed_length]

/-- The EOCD record is twenty-two bytes long. -/
theorem eocdRec_length (n sz off : Nat) : (eocdRec n sz off).length = 22 := rfl

/-- The count field of the EOCD record reads back. -/
theorem eocd_read_count (n sz off : Nat) (hn : n < 65536) :
    readU16? (eocdRec n sz off) 10 = some n := by
  rw [show readU16? (eocdRec n sz off) 10 =
    some (n % 256 + 256 * (n / 256 % 256)) from rfl, u16round n hn]

/-- The directory size field of the EOCD record reads back. -/
theorem eocd_read_size (n sz off : Nat) (hs : sz < 4294967296) :
    readU32? (eocdRec n sz off) 12 = some sz := by
  rw [show readU32? (eocdRec n sz off) 12 =
    some (sz % 256 + 256 * (sz / 256 % 256) + 65536 * (sz / 65536 % 256) +
      16777216 * (sz / 16777216 % 256)) from rfl, u32round sz hs]

/-- The directory offset field of the EOCD record reads back. -/
theorem eocd_read_offset (n sz off : Nat) (ho : off < 4294967296) :
    readU32? (eocdRec n sz off) 16 = some off := by
  rw [show readU32? (eocdRec n sz off) 16 =
    some (off % 256 + 256 * (off / 256 % 256) + 65536 * (off / 65536 % 256) +
      16777216 * (off / 16777216 % 256)) from rfl, u32round off ho]

/-- Under modest bounds on its fields, no position strictly inside the
EOCD record reads back the EOCD signature word. -/
theorem eocd_no_false_sig (n sz off : Nat) (hn : n < 4096) (hs : sz < 16777216)
    (ho : off < 16777216) :
    ∀ k, 1 ≤ k → k ≤ 18 → readU32? (eocdRec n sz off) k ≠ some 0x06054b50 := by
  have e1 : readU32? (eocdRec n sz off) 1 =
    some (75 + 256 * 5 + 65536 * 6 + 16777216 * 0) := rfl
  have e2 : readU32? (eocdRec n sz off) 2 =
    some (5 + 256 * 6 + 65536 * 0 + 16777216 * 0) := rfl
  have e3 : readU32? (eocdRec n sz off) 3 =
    some (6 + 256 * 0 + 65536 * 0 + 16777216 * 0) := rfl
  have e4 : readU32? (eocdRec n sz off) 4 =
    some (0 + 256 * 0 + 65536 * 0 + 16777216 * 0) := rfl
  have e5 : readU32? (eocdRec n sz off) 5 =
    some (0 + 256 * 0 + 65536 * 0 + 16777216 * (n % 256)) := rfl
  have e6 : readU32? (eocdRec n sz off) 6 =
    some (0 + 256 * 0 + 65536 * (n % 256) + 16777216 * (n / 256 % 256)) := rfl
  have e7 : readU32? (eocdRec n sz off) 7 =
    some (0 + 256 * (n % 256) + 65536 * (n / 256 % 256) + 16777216 * (n % 256)) := rfl
  have e8 : readU32? (eocdRec n sz off) 8 =
    some (n % 256 + 256 * (n / 256 % 256) + 65536 * (n % 256) +
      16777216 * (n / 256 % 256)) := rfl
  have e9 : readU32? (eocdRec n sz off) 9 =
    some (n / 256 % 256 + 256 * (n % 256) + 65536 * (n / 256 % 256) +
      16777216 * (sz % 256)) := rfl
  have e10 : readU32? (eocdRec n sz off) 10 =
    some (n % 256 + 256 * (n / 256 % 256) + 65536 * (sz % 256) +
      16777216 * (sz / 256 % 256)) := rfl
  have e11 : readU32? (eocdRec n sz off) 11 =
    some (n / 256 % 256 + 256 * (sz % 256) + 65536 * (sz / 256 % 256) +
      16777216 * (sz / 65536 % 256)) := rfl
  have e12 : readU32? (eocdRec n sz off) 12 =
    some (sz % 256 + 256 * (sz / 256 % 256) + 65536 * (sz / 65536 % 256) +
      16777216 * (sz / 16777216 % 256)) := rfl
  have e13 : readU32? (eocdRec n sz off) 13 =
    some (sz / 256 % 256 + 256 * (sz / 65536 % 256) + 65536 * (sz / 16777216 % 256) +
      16777216 * (off % 256)) := rfl
  have e14 : readU32? (eocdRec n sz off) 14 =
    some (sz / 65536 % 256 + 256 * (sz / 16777216 % 256) + 65536 * (off % 256) +
      16777216 * (off / 256 % 256)) := rfl
  have e15 : readU32? (eocdRec n sz off) 15 =
    some (sz / 16777216 % 256 + 256 * (off % 256) + 65536 * (off / 256 % 256) +
      16777216 * (off / 65536 % 256)) := rfl
  have e16 : readU32? (eocdRec n sz off) 16 =
    some (off % 256 + 256 * (off / 256 % 256) + 65536 * (off / 65536 % 256) +
      16777216 * (off / 16777216 % 256)) := rfl
  have e17 : readU32? (eocdRec n sz off) 17 =
    some (off / 256 % 256 + 256 * (off / 65536 % 256) + 65536 * (off / 16777216 % 256) +
      16777216 * 0) := rfl
  have e18 : readU32? (eocdRec n sz off) 18 =
    some (off / 65536 % 256 + 256 * (off / 16777216 % 256) + 65536 * 0 +
      16777216 * 0) := rfl
  intro k hk1 hk2 hcontra
  interval_cases k
  · rw [e1] at hcontra; injection hcontra with h; omega
  · rw [e2] at hcontra; injection hcontra with h; omega
  · rw [e3] at hcontra; injection hcontra with h; omega
  · rw [e4] at hcontra; injection hcontra with h; omega
  · rw [e5] at hcontra; injection hcontra with h; omega
  · rw [e6] at hcontra; injection hcontra with h; omega
  · rw [e7] at hcontra; injection hcontra with h; omega
  · rw [e8] at hcontra; injection hcontra with h; omega
  · rw [e9] at hcontra; injection hcontra with h; omega
  · rw [e10] at hcontra; injection hcontra with h; omega
  · rw [e11] at hcontra; injection hcontra with h; omega
  · rw [e12] at hcontra; injection hcontra with h; omega
  · rw [e13] at hcontra; injection hcontra with h; omega
  · rw [e14] at hcontra; injection hcontra with h; omega
  · rw [e15] at hcontra; injection hcontra with h; omega
  · rw [e16] at hcontra; injection hcontra with h; omega
  · rw [e17] at hcontra; injection hcontra with h; omega
  · rw [e18] at hcontra; injection hcontra with h; omega

/-- On any buffer ending in an EOCD record with bounded fields, the
backward search finds exactly the record start. -/
theorem findEocd_of_build (body : List Nat) (n sz off : Nat)
    (hn : n < 4096) (hs : sz < 16777216) (ho : off < 16777216) :
    findEocd (body ++ eocdRec n sz off) = some body.length := by
  have hlen : (body ++ eocdRec n sz off).length = body.length + 22 := by
    rw [List.length_append, eocdRec_length]
  have hsig : readU32? (body ++ eocdRec n sz off) body.length = some 0x06054b50 := by
    have h := readU32?_shift body (eocdRec n sz off) 0
    rw [show readU32? (eocdRec n sz off) 0 = some 0x06054b50 from rfl] at h
    simpa using h
  have hno : ∀ j, body.length < j → j ≤ body.length + 18 →
      readU32? (body ++ eocdRec n sz off) j ≠ some 0x06054b50 := by
    intro j h1 h2
    have hj : j = body.length + (j - body.length) := by omega
    rw [hj, readU32?_shift]
    exact eocd_no_false_sig n sz off hn hs ho (j - body.length) (by omega) (by omega)
  unfold findEocd
  rw [if_neg (by omega : ¬ (body ++ eocdRec n sz off).length < 4)]
  have h18 : (body ++ eocdRec n sz off).length - 4 = body.length + 18 := by omega
  rw [h18]
  exact scanEocd_skip _ _ body.length (by omega) hsig 18 hno

end Crx

namespace Crx

/-- Parsing the central directory of a built archive recovers exactly the
entry descriptors, with local header offsets accumulating from the given
base. -/
theorem parseCdEntries_build (es : List ZipEntry) :
    ∀ (b A suf : List Nat) (lho0 : Nat),
      b = A ++ cdRecs es lho0 ++ suf →
      (∀ e ∈ es, entryOK e) →
      lho0 + (localPart es).length < 4294967296 →
      parseCdEntries b es.length A.length = Except.ok (cdDescs es lho0) := by
  induction es with
  | nil =>
    intro b A suf lho0 hb hok hlho
    simp [parseCdEntries, cdDescs]
  | cons e r ih =>
    intro b A suf lho0 hb hok hlho
    obtain ⟨hname, hmth, hpl, hcl⟩ := hok e (List.mem_cons_self e r)
    have hlloc : (localPart (e :: r)).length =
        (30 + e.name.length + e.payload.length) + (localPart r).length := by
      show (localRec e ++ localPart r).length = _
      rw [List.length_append, localRec_length]
    have hlho0 : lho0 < 4294967296 := by omega
    have hb1 : b = A ++ (cdRec e lho0 ++
        (cdRecs r (lho0 + (30 + e.name.length + e.payload.length)) ++ suf)) := by
      rw [hb]
      show A ++ (cdRec e lho0 ++ cdRecs r _) ++ suf = _
      simp [List.append_assoc]
    have sh16 : ∀ K v, readU16? (cdRec e lho0 ++
        (cdRecs r (lho0 + (30 + e.name.length + e.payload.length)) ++ suf)) K = some v →
        readU16? b (A.length + K) = some v := by
      intro K v hK
      rw [hb1, readU16?_shift]
      exact hK
    have sh32 : ∀ K v, readU32? (cdRec e lho0 ++
        (cdRecs r (lho0 + (30 + e.name.length + e.payload.length)) ++ suf)) K = some v →
        readU32? b (A.length + K) = some v := by
      intro K v hK
      rw [hb1, readU32?_shift]
      exact hK
    have rd0 : readU32? b A.length = some 0x02014b50 := by
      have h := sh32 0 0x02014b50 rfl
      simpa using h
    have rd4 : readU16? b (A.length + 4) = some 20 := sh16 4 20 rfl
    have rd6 : readU16? b (A.length + 6) = some 20 := sh16 6 20 rfl
    have rd8 : readU16? b (A.length + 8) = some 0 := sh16 8 0 rfl
    have rd10 : readU16? b (A.length + 10) = some e.method := by
      have h := sh16 10 (e.method % 256 + 256 * (e.method / 256 % 256)) rfl
      rw [u16round e.method hmth] at h
      exact h
    have rd12 : readU16? b (A.length + 12) = some 0 := sh16 12 0 rfl
    have rd14 : readU16? b (A.length + 14) = some 0 := sh16 14 0 rfl
    have rd16 : readU32? b (A.length + 16) = some 0 := sh32 16 0 rfl
    have rd20 : readU32? b (A.length + 20) = some e.payload.length := by
      have h := sh32 20 (e.payload.length % 256 + 256 * (e.payload.length / 256 % 256) +
        65536 * (e.payload.length / 65536 % 256) +
        16777216 * (e.payload.length / 16777216 % 256)) rfl
      rw [u32round e.payload.length hpl] at h
      exact h
    have rd24 : readU32? b (A.length + 24) = some e.content.length := by
      have h := sh32 24 (e.content.length % 256 + 256 * (e.content.length / 256 % 256) +
        65536 * (e.content.length / 65536 % 256) +
        16777216 * (e.content.length / 16777216 % 256)) rfl
      rw [u32round e.content.length hcl] at h
      exact h
    have rd28 : readU16? b (A.length + 28) = some e.name.length := by
      have h := sh16 28 (e.name.length % 256 + 256 * (e.name.length / 256 % 256)) rfl
      rw [u16round e.name.length hname] at h
      exact h
    have rd30 : readU16? b (A.length + 30) = some 0 := sh16 30 0 rfl
    have rd32 : readU16? b (A.length + 32) = some 0 := sh16 32 0 rfl
    have rd34 : readU16? b (A.length + 34) = some 0 := sh16 34 0 rfl
    have rd36 : readU16? b (A.length + 36) = some 0 := sh16 36 0 rfl
    have rd38 : readU32? b (A.length + 38) = some 0 := sh32 38 0 rfl
    have rd42 : readU32? b (A.length + 42) = some lho0 := by
      have h := sh32 42 (lho0 % 256 + 256 * (lho0 / 256 % 256) +
        65536 * (lho0 / 65536 % 256) + 16777216 * (lho0 / 16777216 % 256)) rfl
      rw [u32round lho0 hlho0] at h
      exact h
    have hb2 : b = (A ++ cdRecFixed e lho0) ++ e.name ++
        (cdRecs r (lho0 + (30 + e.name.length + e.payload.length)) ++ suf) := by
      rw [hb]
      show A ++ ((cdRecFixed e lho0 ++ e.name) ++ cdRecs r _) ++ suf = _
      simp [List.append_assoc]
    have hlen46 : (A ++ cdRecFixed e lho0).length = A.length + 46 := by
      rw [List.length_append, cdRecFixed_length]
    have hname46 : bslice b (A.length + 46) (A.length + 46 + e.name.length) = e.name := by
      have h := bslice_exact (A ++ cdRecFixed e lho0) e.name
        (cdRecs r (lho0 + (30 + e.name.length + e.payload.length)) ++ suf)
      rw [hlen46] at h
      rw [hb2]
      exact h
    have hbIH : b = (A ++ cdRec e lho0) ++
        cdRecs r (lho0 + (30 + e.name.length + e.payload.length)) ++ suf := by
      rw [hb]
      show A ++ (cdRec e lho0 ++ cdRecs r _) ++ suf = _
      simp [List.append_assoc]
    have hIH := ih b (A ++ cdRec e lho0) suf
      (lho0 + (30 + e.name.length + e.payload.length)) hbIH
      (fun z hz => hok z (List.mem_cons_of_mem e hz)) (by omega)
    have hlenACd : (A ++ cdRec e lho0).length = A.length + (46 + e.name.length) := by
      rw [List.length_append, cdRec_length]
    rw [hlenACd] at hIH
    simp only [List.length_cons, parseCdEntries, rd0]
    rw [if_neg (by decide : ¬ (0x02014b50 : Nat) ≠ 0x02014b50)]
    simp only [rd4, rd6, rd8, rd10, rd12, rd14, rd16, rd20, rd24, rd28, rd30, rd32,
      rd34, rd36, rd38, rd42, hname46]
    have hidx : A.length + 46 + e.name.length + 0 + 0 = A.length + (46 + e.name.length) := by
      omega
    rw [hidx]
    simp only [hIH]
    rfl

end Crx

namespace Crx

/-- Extracting the descriptor list of a built archive succeeds and
performs exactly the expected actions: a directory creation for each
directory marker, and a parent directory creation followed by a content
write for each regular entry. -/
theorem extractFiles_build (inflate : List Nat → Option (List Nat)) (out : List Nat)
    (es : List ZipEntry) :
    ∀ (b A suf : List Nat),
      b = A ++ localPart es ++ suf →
      (∀ e ∈ es, e.name.length < 65536) →
      (∀ e ∈ es, isDirEntry e ∨ entryGood inflate e) →
      extractFiles inflate b out (cdDescs es A.length) =
        (actionsFor out es, none) := by
  induction es with
  | nil =>
    intro b A suf hb hok hgood
    simp [cdDescs, extractFiles, actionsFor]
  | cons e r ih =>
    intro b A suf hb hok hgood
    have hname := hok e (List.mem_cons_self e r)
    have hb1 : b = A ++ (localRec e ++ (localPart r ++ suf)) := by
      rw [hb]
      show A ++ (localRec e ++ localPart r) ++ suf = _
      simp [List.append_assoc]
    have hbIH : b = (A ++ localRec e) ++ localPart r ++ suf := by
      rw [hb]
      show A ++ (localRec e ++ localPart r) ++ suf = _
      simp [List.append_assoc]
    have hIH := ih b (A ++ localRec e) suf hbIH
      (fun z hz => hok z (List.mem_cons_of_mem e hz))
      (fun z hz => hgood z (List.mem_cons_of_mem e hz))
    have hAlen : (A ++ localRec e).length =
        A.length + (30 + e.name.length + e.payload.length) := by
      rw [List.length_append, localRec_length]
    rw [hAlen] at hIH
    show extractFiles inflate b out
      (⟨e.name, e.method, e.payload.length, e.content.length, 0, A.length⟩ ::
        cdDescs r (A.length + (30 + e.name.length + e.payload.length))) = _
    by_cases hdir : e.name.getLast? = some 47
    · have hone : extractOne inflate b out
          ⟨e.name, e.method, e.payload.length, e.content.length, 0, A.length⟩ =
          ([FsAction.mkdir (pathJoin out e.name)], none) := by
        unfold extractOne
        rw [if_pos hdir]
      simp only [extractFiles, hone, hIH]
      simp [actionsFor, hdir]
    · have sh16 : ∀ K v, readU16? (localRec e ++ (localPart r ++ suf)) K = some v →
          readU16? b (A.length + K) = some v := by
        intro K v hK
        rw [hb1, readU16?_shift]
        exact hK
      have rd0 : readU32? b A.length = some 0x04034b50 := by
        have h : readU32? (localRec e ++ (localPart r ++ suf)) 0 = some 0x04034b50 := by
          show readU32? ((localRecFixed e ++ e.name ++ e.payload) ++ _) 0 = _
          simp only [List.append_assoc]
          rfl
        rw [hb1]
        have h2 := readU32?_shift A (localRec e ++ (localPart r ++ suf)) 0
        rw [h] at h2
        simpa using h2
      have hlrec : localRec e ++ (localPart r ++ suf) =
          localRecFixed e ++ (e.name ++ (e.payload ++ (localPart r ++ suf))) := by
        show (localRecFixed e ++ e.name ++ e.payload) ++ _ = _
        simp [List.append_assoc]
      have rd4 : readU16? b (A.length + 4) = some 20 := by
        refine sh16 4 20 ?_
        rw [hlrec]
        rfl
      have rd6 : readU16? b (A.length + 6) = some 0 := by
        refine sh16 6 0 ?_
        rw [hlrec]
        rfl
      have rd8 : readU16? b (A.length + 8) =
          some (e.method % 256 + 256 * (e.method / 256 % 256)) := by
        refine sh16 8 _ ?_
        rw [hlrec]
        rfl
      have rd26 : readU16? b (A.length + 26) = some e.name.length := by
        have h : readU16? (localRec e ++ (localPart r ++ suf)) 26 =
            some (e.name.length % 256 + 256 * (e.name.length / 256 % 256)) := by
          rw [hlrec]
          rfl
        rw [u16round e.name.length hname] at h
        exact sh16 26 e.name.length h
      have rd28 : readU16? b (A.length + 28) = some 0 := by
        refine sh16 28 0 ?_
        rw [hlrec]
        rfl
      have hb2 : b = ((A ++ localRecFixed e) ++ e.name) ++ e.payload ++
          (localPart r ++ suf) := by
        rw [hb]
        show A ++ ((localRecFixed e ++ e.name ++ e.payload) ++ localPart r) ++ suf = _
        simp [List.append_assoc]
      have hpre : ((A ++ localRecFixed e) ++ e.name).length =
          A.length + 30 + e.name.length := by
        rw [List.length_append, List.length_append, localRecFixed_length]
      have hpay : bslice b (A.length + 30 + e.name.length + 0)
          (A.length + 30 + e.name.length + 0 + e.payload.length) = e.payload := by
        have h := bslice_exact ((A ++ localRecFixed e) ++ e.name) e.payload
          (localPart r ++ suf)
        rw [hpre] at h
        rw [hb2]
        have hx : A.length + 30 + e.name.length + 0 = A.length + 30 + e.name.length := by
          omega
        rw [hx]
        exact h
      rcases hgood e (List.mem_cons_self e r) with hd | hg
      · exact absurd hd hdir
      · have hone : extractOne inflate b out
            ⟨e.name, e.method, e.payload.length, e.content.length, 0, A.length⟩ =
            ([FsAction.mkdir (dirname (pathJoin out e.name)),
              FsAction.writeFile (pathJoin out e.name) e.content], none) := by
          unfold extractOne
          rw [if_neg hdir]
          simp only [rd0, rd4, rd6, rd8, rd26, rd28]
          rw [if_neg (by decide : ¬ (0x04034b50 : Nat) ≠ 0x04034b50)]
          rcases hg with ⟨hm0, hpc⟩ | ⟨hm8, hpc⟩
          · rw [hm0]
            rw [if_pos rfl]
            rw [hpay, hpc]
          · rw [hm8]
            rw [if_neg (by decide : ¬ (8 : Nat) = 0), if_pos rfl]
            rw [hpay, hpc]
        simp only [extractFiles, hone, hIH]
        simp [actionsFor, hdir]

end Crx

namespace Crx

/-- Extraction of a built archive with bounded fields succeeds and
performs the output folder creation followed by the expected per-entry
actions. -/
theorem parseZip_build (inflate : List Nat → Option (List Nat)) (out : List Nat)
    (es : List ZipEntry)
    (hok : ∀ e ∈ es, entryOK e)
    (hgood : ∀ e ∈ es, isDirEntry e ∨ entryGood inflate e)
    (hcount : es.length < 4096)
    (hL : (localPart es).length < 16777216)
    (hC : (cdRecs es 0).length < 16777216) :
    parseZipCentralDirectory inflate (zipBuild es) out =
      (FsAction.mkdir out :: actionsFor out es, none) := by
  have hplen : (localPart es ++ cdRecs es 0).length =
      (localPart es).length + (cdRecs es 0).length := List.length_append _ _
  have hzlen : (zipBuild es).length =
      ((localPart es).length + (cdRecs es 0).length) + 22 := by
    show ((localPart es ++ cdRecs es 0) ++ eocdRec _ _ _).length = _
    rw [List.length_append, eocdRec_length, hplen]
  have hfind : findEocd (zipBuild es) =
      some (localPart es ++ cdRecs es 0).length :=
    findEocd_of_build (localPart es ++ cdRecs es 0) es.length
      (cdRecs es 0).length (localPart es).length hcount hC hL
  have h10 : readU16? (zipBuild es) ((localPart es ++ cdRecs es 0).length + 10) =
      some es.length := by
    show readU16? ((localPart es ++ cdRecs es 0) ++ eocdRec _ _ _) _ = _
    rw [readU16?_shift]
    exact eocd_read_count _ _ _ (by omega)
  have h12 : readU32? (zipBuild es) ((localPart es ++ cdRecs es 0).length + 12) =
      some (cdRecs es 0).length := by
    show readU32? ((localPart es ++ cdRecs es 0) ++ eocdRec _ _ _) _ = _
    rw [readU32?_shift]
    exact eocd_read_size _ _ _ (by omega)
  have h16 : readU32? (zipBuild es) ((localPart es ++ cdRecs es 0).length + 16) =
      some (localPart es).length := by
    show readU32? ((localPart es ++ cdRecs es 0) ++ eocdRec _ _ _) _ = _
    rw [readU32?_shift]
    exact eocd_read_offset _ _ _ (by omega)
  have hparse : parseCdEntries (zipBuild es) es.length (localPart es).length =
      Except.ok (cdDescs es 0) :=
    parseCdEntries_build es (zipBuild es) (localPart es)
      (eocdRec es.length (cdRecs es 0).length (localPart es).length) 0
      rfl hok (by omega)
  have hextract : extractFiles inflate (zipBuild es) out (cdDescs es 0) =
      (actionsFor out es, none) := by
    have h := extractFiles_build inflate out es (zipBuild es) []
      (cdRecs es 0 ++ eocdRec es.length (cdRecs es 0).length (localPart es).length)
      (by simp [zipBuild, List.append_assoc])
      (fun e he => (hok e he).1)
      hgood
    simpa using h
  simp only [parseZipCentralDirectory, hfind, h10, h12, h16]
  rw [if_neg (by omega :
    ¬ (localPart es).length + (cdRecs es 0).length > (zipBuild es).length)]
  unfold afterDirCheck
  simp only [hparse, hextract]

/-- A regular entry's content write is among the expected actions. -/
theorem mem_actionsFor_write (out : List Nat) (es : List ZipEntry) (e : ZipEntry)
    (he : e ∈ es) (hreg : ¬ isDirEntry e) :
    FsAction.writeFile (pathJoin out e.name) e.content ∈ actionsFor out es := by
  induction es with
  | nil => cases he
  | cons f r ih =>
    rcases List.mem_cons.mp he with rfl | hr
    · simp only [actionsFor]
      rw [if_neg hreg]
      simp
    · simp only [actionsFor]
      exact List.mem_append_right _ (ih hr)

/-- A directory marker's directory creation is among the expected
actions. -/
theorem mem_actionsFor_mkdir (out : List Nat) (es : List ZipEntry) (e : ZipEntry)
    (he : e ∈ es) (hd : isDirEntry e) :
    FsAction.mkdir (pathJoin out e.name) ∈ actionsFor out es := by
  induction es with
  | nil => cases he
  | cons f r ih =>
    rcases List.mem_cons.mp he with rfl | hr
    · simp only [actionsFor]
      rw [if_pos hd]
      simp
    · simp only [actionsFor]
      exact List.mem_append_right _ (ih hr)

/-- C1: extracting a built archive with any number of entries, stored or
deflate, directory markers and nested paths included, succeeds, writes
for every regular entry a file at the join of the destination root and
the entry name whose bytes are the entry's original content, and creates
every directory named by a directory-marker entry. -/
theorem C1_roundtrip (inflate : List Nat → Option (List Nat)) (out : List Nat)
    (es : List ZipEntry)
    (hok : ∀ e ∈ es, entryOK e)
    (hgood : ∀ e ∈ es, isDirEntry e ∨ entryGood inflate e)
    (hcount : es.length < 4096)
    (hL : (localPart es).length < 16777216)
    (hC : (cdRecs es 0).length < 16777216) :
    ∃ acts, parseZipCentralDirectory inflate (zipBuild es) out = (acts, none) ∧
      (∀ e ∈ es, ¬ isDirEntry e →
        FsAction.writeFile (pathJoin out e.name) e.content ∈ acts) ∧
      (∀ e ∈ es, isDirEntry e → FsAction.mkdir (pathJoin out e.name) ∈ acts) := by
  refine ⟨FsAction.mkdir out :: actionsFor out es,
    parseZip_build inflate out es hok hgood hcount hL hC, ?_, ?_⟩
  · intro e he hreg
    exact List.mem_cons_of_mem _ (mem_actionsFor_write out es e he hreg)
  · intro e he hd
    exact List.mem_cons_of_mem _ (mem_actionsFor_mkdir out es e he hd)

/-- Closed instance of C1 on a three-entry archive: a directory marker, a
stored nested-path file, and a deflate file. -/
theorem C1_roundtrip_witness :
    ∃ acts, parseZipCentralDirectory inflateFix (zipBuild
        [⟨[100, 47], 0, [], []⟩, ⟨[100, 47, 97], 0, [104, 105], [104, 105]⟩,
         ⟨[98], 8, [1, 3, 0, 252, 255, 97, 97, 97], [97, 97, 97]⟩])
        [111, 117, 116] = (acts, none) ∧
      (∀ e ∈ [(⟨[100, 47], 0, [], []⟩ : ZipEntry),
          ⟨[100, 47, 97], 0, [104, 105], [104, 105]⟩,
          ⟨[98], 8, [1, 3, 0, 252, 255, 97, 97, 97], [97, 97, 97]⟩],
        ¬ isDirEntry e →
        FsAction.writeFile (pathJoin [111, 117, 116] e.name) e.content ∈ acts) ∧
      (∀ e ∈ [(⟨[100, 47], 0, [], []⟩ : ZipEntry),
          ⟨[100, 47, 97], 0, [104, 105], [104, 105]⟩,
          ⟨[98], 8, [1, 3, 0, 252, 255, 97, 97, 97], [97, 97, 97]⟩],
        isDirEntry e → FsAction.mkdir (pathJoin [111, 117, 116] e.name) ∈ acts) :=
  C1_roundtrip inflateFix [111, 117, 116]
    [⟨[100, 47], 0, [], []⟩, ⟨[100, 47, 97], 0, [104, 105], [104, 105]⟩,
     ⟨[98], 8, [1, 3, 0, 252, 255, 97, 97, 97], [97, 97, 97]⟩]
    (by decide) (by decide) (by decide) (by decide) (by decide)

end Crx
